import Mathlib

/-!
Verification development for the dual-variable warm-start OSQP interface of the
open-space trajectory smoother
(`modules/planning/open_space/trajectory_smoother/dual_variable_warm_start_osqp_interface.cc`).

The C++ class is embedded shallowly:

* Eigen matrices that only feed scalar reads are embedded as functions
  (`ego i` for `ego_(i, 0)`, `obstacles_A r c` for `obstacles_A_(r, c)`,
  `xWS r i` for `xWS_(r, i)`, `obstacles_edges_num j` for
  `obstacles_edges_num_(j, 0)`); machine doubles are embedded as `ℝ`.
* The CSC triples `(data, indices, indptr)` that `assemble_P` and
  `assemble_constraint` push imperatively are embedded per column: each
  function below produces the list of columns, each column being the list of
  `(row, value)` pairs in exactly the push order of the source loops; the
  flat arrays are recovered by flattening and the column-pointer array by the
  running prefix sums of the column lengths, which is precisely the value of
  `first_row_location` at each `indptr` push.
* Running counters of the source loops (`r1_index`, `r2_index`, `r3_index`,
  `r4_index`, `l_index`, `edges_counter`, `first_row_location`,
  `variable_index`) are replaced by their closed forms in the loop variables,
  obtained by counting the increments executed before each iteration.
* The tail of `optimize` (status check, extraction, cleanup) is embedded as a
  function of the solver outcome; the released native structures are recorded
  as an explicit list per exit path.
-/

namespace DualVariableWarmStartOSQP

/-- Constructor inputs of `DualVariableWarmStartOSQPInterface` (lines 32-43).
`ts` and the open-space config are stored but unused by the embedded code
paths, so they are omitted. -/
structure QPInput where
  horizon : ℕ
  obstacles_num : ℕ
  obstacles_edges_num : ℕ → ℕ
  ego : ℕ → ℝ
  obstacles_A : ℕ → ℕ → ℝ
  obstacles_b : ℕ → ℝ
  xWS : ℕ → ℕ → ℝ

/-- Source: `w_ev_ = ego_(1, 0) + ego_(3, 0)` (line 50). -/
noncomputable def w_ev (p : QPInput) : ℝ := p.ego 1 + p.ego 3

/-- Source: `l_ev_ = ego_(0, 0) + ego_(2, 0)` (line 51). -/
noncomputable def l_ev (p : QPInput) : ℝ := p.ego 0 + p.ego 2

/-- Source: `g_ = {l_ev_ / 2, w_ev_ / 2, l_ev_ / 2, w_ev_ / 2}` (line 52). -/
noncomputable def gList (p : QPInput) : List ℝ :=
  [l_ev p / 2, w_ev p / 2, l_ev p / 2, w_ev p / 2]

/-- Source: `g_[k]`. -/
noncomputable def gVec (p : QPInput) (k : ℕ) : ℝ := (gList p).getD k 0

/-- Source: `offset_ = (ego_(0, 0) + ego_(2, 0)) / 2 - ego_(2, 0)` (line 53). -/
noncomputable def offsetEv (p : QPInput) : ℝ := (p.ego 0 + p.ego 2) / 2 - p.ego 2

/-- Running value of `edges_counter` before obstacle `j` is processed: the sum
of the edge counts of obstacles `0 .. j-1`. -/
def edgeStart (p : QPInput) (j : ℕ) : ℕ :=
  ((List.range j).map p.obstacles_edges_num).sum

/-- Source: `obstacles_edges_sum_ = obstacles_edges_num_.sum()` (line 54). -/
def obstacles_edges_sum (p : QPInput) : ℕ := edgeStart p p.obstacles_num

/-- Source: `lambda_horizon_ = obstacles_edges_sum_ * (horizon_ + 1)` (line 61). -/
def lambda_horizon (p : QPInput) : ℕ := obstacles_edges_sum p * (p.horizon + 1)

/-- Source: `miu_horizon_ = obstacles_num_ * 4 * (horizon_ + 1)` (line 63). -/
def miu_horizon (p : QPInput) : ℕ := p.obstacles_num * 4 * (p.horizon + 1)

/-- Source: `num_of_variables_ = lambda_horizon_ + miu_horizon_` (line 66). -/
def num_of_variables (p : QPInput) : ℕ := lambda_horizon p + miu_horizon p

/-- Source: `num_of_constraints_ = 3 * obstacles_num_ * (horizon_ + 1) +
num_of_variables_` (line 68). -/
def num_of_constraints (p : QPInput) : ℕ :=
  3 * p.obstacles_num * (p.horizon + 1) + num_of_variables p

/-- Global column index of the λ variable of step `i`, obstacle `j`, edge `k`
(`l_start_index_ = 0`, variables ordered step-major, then obstacle, then
edge; lines 55-56 and the loop order of `assemble_constraint`). -/
def lamIdx (p : QPInput) (i j k : ℕ) : ℕ :=
  i * obstacles_edges_sum p + edgeStart p j + k

/-- Global column index of the μ variable of step `i`, obstacle `j`, corner
`k` (`n_start_index_ = lambda_horizon_`; μ variables ordered step-major, then
obstacle, then corner). -/
def muIdx (p : QPInput) (i j k : ℕ) : ℕ :=
  lambda_horizon p + (4 * (i * p.obstacles_num + j) + k)

/-! ### Bound vectors (`optimize`, lines 93-106) -/

/-- Source: `lb[i] = 0.0` for every `i` (the re-assignment in the band
`2*obstacles_num_*(horizon_+1) ≤ i < 3*obstacles_num_*(horizon_+1)` writes
the same value). -/
def lbVec (p : QPInput) (i : ℕ) : ℝ := 0

/-- Source: `ub[i] = 0.0` when `i < 2 * obstacles_num_ * (horizon_ + 1)`, and
`ub[i] = 2e19` otherwise (lines 101-105). -/
noncomputable def ubVec (p : QPInput) (i : ℕ) : ℝ :=
  if i < 2 * p.obstacles_num * (p.horizon + 1) then 0 else 2e19

/-! ### CSC structure -/

/-- Column-pointer array of a per-column sparse representation: entry `c` is
the number of `(row, value)` pairs pushed before column `c` begins — the
running value of `first_row_location` at each `indptr` push, including the
final push after the last column. -/
def cscIndptr (cols : List (List (ℕ × ℝ))) : List ℕ :=
  (List.range (cols.length + 1)).map fun c => (((cols.map List.length).take c).sum)

/-- Entry lookup in the per-column sparse representation: scan column `col`
for a pair whose row index is `row`; absent entries are zero. -/
noncomputable def cscGet (cols : List (ℕ × ℝ) ) (row : ℕ) : ℝ :=
  match cols.find? (fun pr => pr.1 == row) with
  | some pr => pr.2
  | none => 0

/-- Entry of the assembled matrix at `(row, col)`. -/
noncomputable def cscEntry (cols : List (List (ℕ × ℝ))) (row col : ℕ) : ℝ :=
  cscGet (cols.getD col []) row

/-! ### `assemble_P` (lines 177-239) -/

/-- Source: `(Aj * Aj.transpose())(r, c)` for obstacle `j`, where `Aj` is the
`current_edges_num × 2` block of `obstacles_A_` starting at row
`edges_counter = edgeStart p j` (lines 186-190). -/
noncomputable def gram (p : QPInput) (j r c : ℕ) : ℝ :=
  p.obstacles_A (edgeStart p j + r) 0 * p.obstacles_A (edgeStart p j + c) 0 +
    p.obstacles_A (edgeStart p j + r) 1 * p.obstacles_A (edgeStart p j + c) 1

/-- Column `c` of the Gram block of step `i`, obstacle `j`: the source pushes
`P_indices` entries `r + l_index` for `r < current_edges_num` with values
`Aj(r, c)` taken from `P_tmp`, where `l_index = i * obstacles_edges_sum_ +
edgeStart p j` (lines 195-229). -/
noncomputable def pCol (p : QPInput) (i j c : ℕ) : List (ℕ × ℝ) :=
  (List.range (p.obstacles_edges_num j)).map fun r =>
    (i * obstacles_edges_sum p + edgeStart p j + r, gram p j r c)

/-- The λ columns of `P`, in the push order of the source: step-major, then
obstacle, then column within the obstacle's Gram block. -/
noncomputable def pColsLambda (p : QPInput) : List (List (ℕ × ℝ)) :=
  (List.range (p.horizon + 1)).flatMap fun i =>
    (List.range p.obstacles_num).flatMap fun j =>
      (List.range (p.obstacles_edges_num j)).map fun c => pCol p i j c

/-- All columns of `P`: the λ columns followed by one empty column per μ
variable (lines 232-235 pad `P_indptr` with `first_row_location`, i.e. the μ
columns carry no entries). -/
noncomputable def assembleP (p : QPInput) : List (List (ℕ × ℝ)) :=
  pColsLambda p ++ List.replicate (miu_horizon p) []

/-- Source: `P_data`: values in push order. -/
noncomputable def P_data (p : QPInput) : List ℝ :=
  (assembleP p).flatten.map Prod.snd

/-- Source: `P_indices`: row indices in push order. -/
noncomputable def P_indices (p : QPInput) : List ℕ :=
  (assembleP p).flatten.map Prod.fst

/-- Source: `P_indptr`. -/
noncomputable def P_indptr (p : QPInput) : List ℕ := cscIndptr (assembleP p)

/-! ### `assemble_constraint` (lines 241-351) -/

/-- The λ column of step `i`, obstacle `j`, edge `k` (lines 260-309).  With
`R = [[cos θ, sin θ], [sin θ, cos θ]]` for `θ = xWS_(2, i)` (lines 263-265;
note the same sign of `sin` in both off-diagonal entries) and
`t_trans = (x + cos θ · offset_, y + sin θ · offset_)` (lines 267-269), the
four pushes per edge are `r1_block(0, k)` at row `r1_index = 2*(i*
obstacles_num_ + j)`, `r1_block(1, k)` at the next row, `r2_block(0, k)` at
row `r2_index = 2*obstacles_num_*(horizon_+1) + i*obstacles_num_ + j`, and
`1.0` at the running identity row `r3_index = 3*obstacles_num_*(horizon_+1) +
lamIdx` (lines 286-302). -/
noncomputable def lambdaCol (p : QPInput) (i j k : ℕ) : List (ℕ × ℝ) :=
  [(2 * (i * p.obstacles_num + j),
    Real.cos (p.xWS 2 i) * p.obstacles_A (edgeStart p j + k) 0 +
      Real.sin (p.xWS 2 i) * p.obstacles_A (edgeStart p j + k) 1),
   (2 * (i * p.obstacles_num + j) + 1,
    Real.sin (p.xWS 2 i) * p.obstacles_A (edgeStart p j + k) 0 +
      Real.cos (p.xWS 2 i) * p.obstacles_A (edgeStart p j + k) 1),
   (2 * p.obstacles_num * (p.horizon + 1) + (i * p.obstacles_num + j),
    (p.xWS 0 i + Real.cos (p.xWS 2 i) * offsetEv p) *
        p.obstacles_A (edgeStart p j + k) 0 +
      (p.xWS 1 i + Real.sin (p.xWS 2 i) * offsetEv p) *
        p.obstacles_A (edgeStart p j + k) 1 -
      p.obstacles_b (edgeStart p j + k)),
   (3 * p.obstacles_num * (p.horizon + 1) + lamIdx p i j k, 1)]

/-- The μ column of step `i`, obstacle `j`, corner `k` (lines 311-345): a
`G` entry (`1.0` for `k < 2`, `-1.0` otherwise) at row `r1_index + k % 2`, the
value `g_[k]` at row `r2_index`, and `1.0` at the running identity row
`r4_index = 3*obstacles_num_*(horizon_+1) + lambda_horizon_ + 4*(i*
obstacles_num_ + j) + k`. -/
noncomputable def muCol (p : QPInput) (i j k : ℕ) : List (ℕ × ℝ) :=
  [(2 * (i * p.obstacles_num + j) + k % 2, if k < 2 then 1 else -1),
   (2 * p.obstacles_num * (p.horizon + 1) + (i * p.obstacles_num + j), gVec p k),
   (3 * p.obstacles_num * (p.horizon + 1) + lambda_horizon p +
      (4 * (i * p.obstacles_num + j) + k), 1)]

/-- The λ columns of `A`, in source push order. -/
noncomputable def lambdaCols (p : QPInput) : List (List (ℕ × ℝ)) :=
  (List.range (p.horizon + 1)).flatMap fun i =>
    (List.range p.obstacles_num).flatMap fun j =>
      (List.range (p.obstacles_edges_num j)).map fun k => lambdaCol p i j k

/-- The μ columns of `A`, in source push order. -/
noncomputable def muCols (p : QPInput) : List (List (ℕ × ℝ)) :=
  (List.range (p.horizon + 1)).flatMap fun i =>
    (List.range p.obstacles_num).flatMap fun j =>
      (List.range 4).map fun k => muCol p i j k

/-- All columns of the constraint matrix `A`: λ columns then μ columns. -/
noncomputable def assembleConstraint (p : QPInput) : List (List (ℕ × ℝ)) :=
  lambdaCols p ++ muCols p

/-- Source: `A_data`. -/
noncomputable def A_data (p : QPInput) : List ℝ :=
  (assembleConstraint p).flatten.map Prod.snd

/-- Source: `A_indices`. -/
noncomputable def A_indices (p : QPInput) : List ℕ :=
  (assembleConstraint p).flatten.map Prod.fst

/-- Source: `A_indptr`. -/
noncomputable def A_indptr (p : QPInput) : List ℕ :=
  cscIndptr (assembleConstraint p)

/-! ### `optimize` tail: status check, extraction, cleanup (lines 108-175) -/

/-- An Eigen dense matrix, embedded as its dimensions and entry function. -/
structure EigenMat where
  rows : ℕ
  cols : ℕ
  entry : ℕ → ℕ → ℝ

/-- Source: `Eigen::MatrixXd::Zero(r, c)`. -/
def matZero (r c : ℕ) : EigenMat := ⟨r, c, fun _ _ => 0⟩

/-- The state surviving across `optimize` calls: the two result matrices. -/
structure WarmStartState where
  l_warm_up : EigenMat
  n_warm_up : EigenMat

/-- Constructor initialization of the result matrices (lines 57-58):
`l_warm_up_ = Zero(obstacles_edges_sum_, horizon_ + 1)`,
`n_warm_up_ = Zero(4 * obstacles_num_, horizon_ + 1)`. -/
def initState (p : QPInput) : WarmStartState :=
  ⟨matZero (obstacles_edges_sum p) (p.horizon + 1),
   matZero (4 * p.obstacles_num) (p.horizon + 1)⟩

/-- What the external OSQP call reports back: `work->info->status_val` and
the primal solution `work->solution->x`. -/
structure OSQPOutcome where
  status_val : ℤ
  x : ℕ → ℝ

/-- The solver-native heap structures allocated during one `optimize` call. -/
inductive NativeRes
  | settings
  | osqpData
  | pMat
  | aMat
  | workspace
  deriving DecidableEq

/-- Allocation order inside `optimize`: `settings` (line 110), `data`
(line 121), the two `csc_matrix` structures (lines 124, 127), the workspace
(line 133). -/
def allocatedResources : List NativeRes :=
  [NativeRes.settings, NativeRes.osqpData, NativeRes.pMat, NativeRes.aMat,
   NativeRes.workspace]

/-- The tail of `optimize` after `osqp_solve` (lines 138-174): if
`status_val` is neither 1 nor 2 the call returns `false` immediately, leaving
the result matrices untouched and freeing nothing; otherwise it overwrites
both result matrices from the primal solution in the canonical variable
order, frees the native structures (lines 167-172) and returns `true`.  The
third component records which native structures are freed on that exit
path. -/
noncomputable def optimizeRun (p : QPInput) (st : WarmStartState)
    (out : OSQPOutcome) : Bool × WarmStartState × List NativeRes :=
  if out.status_val ≠ 1 ∧ out.status_val ≠ 2 then
    (false, st, [])
  else
    (true,
     ⟨{ rows := obstacles_edges_sum p, cols := p.horizon + 1,
        entry := fun j i => out.x (i * obstacles_edges_sum p + j) },
      { rows := 4 * p.obstacles_num, cols := p.horizon + 1,
        entry := fun j i =>
          out.x (obstacles_edges_sum p * (p.horizon + 1) +
            i * (4 * p.obstacles_num) + j) }⟩,
     [NativeRes.workspace, NativeRes.aMat, NativeRes.pMat, NativeRes.osqpData,
      NativeRes.settings])

/-- Source: `get_optimization_results` (lines 353-357): copies of the two result
matrices. -/
def get_optimization_results (st : WarmStartState) : EigenMat × EigenMat :=
  (st.l_warm_up, st.n_warm_up)

/-! ### Generic lemmas on the per-column sparse representation -/

lemma getD_flatMap_range' {β : Type} (f : ℕ → List β) (d : β) :
    ∀ (i m s k : ℕ), i < m → k < (f (s + i)).length →
      ((List.range' s m).flatMap f).getD
          ((((List.range' s i).map fun t => (f t).length).sum) + k) d
        = (f (s + i)).getD k d := by
  intro i
  induction i with
  | zero =>
    intro m s k hm hk
    obtain ⟨m', rfl⟩ : ∃ m', m = m' + 1 := ⟨m - 1, by omega⟩
    rw [List.range'_succ, List.flatMap_cons]
    simp only [List.range', List.map_nil, List.sum_nil, Nat.zero_add]
    rw [List.getD_append _ _ _ _ (by simpa using hk)]
    simpa using rfl
  | succ i ih =>
    intro m s k hm hk
    obtain ⟨m', rfl⟩ : ∃ m', m = m' + 1 := ⟨m - 1, by omega⟩
    rw [List.range'_succ, List.flatMap_cons]
    rw [List.range'_succ, List.map_cons, List.sum_cons]
    have harr : (f s).length + ((List.range' (s + 1) i).map fun t => (f t).length).sum + k
        = (f s).length + ((((List.range' (s + 1) i).map fun t => (f t).length).sum) + k) := by
      omega
    rw [harr, List.getD_append_right _ _ _ _ (by omega), Nat.add_sub_cancel_left]
    have hs : s + (i + 1) = (s + 1) + i := by omega
    rw [hs] at hk ⊢
    exact ih m' (s + 1) k (by omega) hk

lemma getD_flatMap_range {β : Type} (f : ℕ → List β) (d : β) (n i k : ℕ)
    (hi : i < n) (hk : k < (f i).length) :
    ((List.range n).flatMap f).getD
        ((((List.range i).map fun t => (f t).length).sum) + k) d
      = (f i).getD k d := by
  rw [List.range_eq_range', List.range_eq_range']
  simpa using getD_flatMap_range' f d i n 0 k hi (by simpa using hk)

lemma getD_map_range {β : Type} (g : ℕ → β) (d : β) (m k : ℕ) (hk : k < m) :
    ((List.range m).map g).getD k d = g k := by
  rw [List.getD_eq_getElem?_getD, List.getElem?_map, List.getElem?_range hk]
  rfl

lemma sum_const_range (c n : ℕ) : ((List.range n).map fun _ => c).sum = n * c := by
  simp [List.map_const']

lemma length_inner_block {β : Type} (e : ℕ → ℕ) (mk : ℕ → ℕ → β) (m : ℕ) :
    ((List.range m).flatMap fun j => (List.range (e j)).map (mk j)).length
      = ((List.range m).map e).sum := by
  rw [List.length_flatMap]
  have hfe : (List.length ∘ fun j => (List.range (e j)).map (mk j)) = e := by
    funext a
    simp
  rw [hfe]

lemma edge_prefix_lt (e : ℕ → ℕ) (m j k : ℕ) (hj : j < m) (hk : k < e j) :
    ((List.range j).map e).sum + k < ((List.range m).map e).sum := by
  have hsplit : m = (j + 1) + (m - (j + 1)) := by omega
  have h1 : ((List.range (j + 1)).map e).sum ≤ ((List.range m).map e).sum := by
    conv_rhs => rw [hsplit, List.range_add]
    rw [List.map_append, List.sum_append]
    exact Nat.le_add_right _ _
  rw [List.range_succ, List.map_append, List.sum_append] at h1
  simp only [List.map_cons, List.map_nil, List.sum_cons, List.sum_nil] at h1
  omega

lemma getD_nested (e : ℕ → ℕ) (mk : ℕ → ℕ → ℕ → List (ℕ × ℝ)) (H M : ℕ)
    {i j k : ℕ} (hi : i < H) (hj : j < M) (hk : k < e j) :
    ((List.range H).flatMap fun i' => (List.range M).flatMap fun j' =>
        (List.range (e j')).map fun k' => mk i' j' k').getD
      (i * ((List.range M).map e).sum + (((List.range j).map e).sum + k)) []
      = mk i j k := by
  have hblock : ∀ t, ((List.range M).flatMap fun j' =>
      (List.range (e j')).map fun k' => mk t j' k').length = ((List.range M).map e).sum :=
    fun t => length_inner_block e (fun j' k' => mk t j' k') M
  have houter :
      ((List.range i).map fun t => ((List.range M).flatMap fun j' =>
          (List.range (e j')).map fun k' => mk t j' k').length).sum
        = i * ((List.range M).map e).sum := by
    simp only [hblock]
    exact sum_const_range _ _
  have hinlt : ((List.range j).map e).sum + k < ((List.range M).map e).sum :=
    edge_prefix_lt e M j k hj hk
  rw [← houter,
    getD_flatMap_range _ _ H i _ hi (by rw [hblock]; exact hinlt)]
  have hjlen :
      ((List.range j).map fun t => ((List.range (e t)).map fun k' => mk i t k').length).sum
        = ((List.range j).map e).sum := by
    simp
  rw [← hjlen,
    getD_flatMap_range _ _ M j _ hj (by simpa using hk)]
  exact getD_map_range _ _ _ _ hk

lemma cscGet_cons_hit (r : ℕ) (v : ℝ) (l : List (ℕ × ℝ)) : cscGet ((r, v) :: l) r = v := by
  unfold cscGet
  rw [List.find?_cons_of_pos _ (by simp)]

lemma cscGet_cons_miss (r : ℕ) (v : ℝ) (l : List (ℕ × ℝ)) (row : ℕ) (h : r ≠ row) :
    cscGet ((r, v) :: l) row = cscGet l row := by
  unfold cscGet
  rw [List.find?_cons_of_neg _ (by simpa using h)]

lemma cscGet_nil (row : ℕ) : cscGet [] row = 0 := rfl

lemma find?_map_range'_hit (v : ℕ → ℝ) (base : ℕ) :
    ∀ (m s r : ℕ), s ≤ r → r < s + m →
      (((List.range' s m).map fun t => (base + t, v t)).find? fun pr => pr.1 == base + r)
        = some (base + r, v r) := by
  intro m
  induction m with
  | zero => intro s r h1 h2; omega
  | succ m ih =>
    intro s r h1 h2
    rw [List.range'_succ, List.map_cons]
    by_cases hsr : s = r
    · subst hsr
      exact List.find?_cons_of_pos _ (by simp)
    · rw [List.find?_cons_of_neg _ (by simp; omega)]
      exact ih (s + 1) r (by omega) (by omega)

lemma cscGet_map_range_hit (v : ℕ → ℝ) (base m r : ℕ) (hr : r < m) :
    cscGet ((List.range m).map fun t => (base + t, v t)) (base + r) = v r := by
  unfold cscGet
  rw [List.range_eq_range',
    find?_map_range'_hit v base m 0 r (by omega) (by omega)]

lemma cscGet_map_range_none (v : ℕ → ℝ) (base m row : ℕ)
    (h : ∀ t, t < m → base + t ≠ row) :
    cscGet ((List.range m).map fun t => (base + t, v t)) row = 0 := by
  unfold cscGet
  rw [show (((List.range m).map fun t => (base + t, v t)).find? fun pr => pr.1 == row)
      = none from ?_]
  rw [List.find?_eq_none]
  intro x hx
  simp only [List.mem_map, List.mem_range] at hx
  obtain ⟨t, ht, rfl⟩ := hx
  simpa using h t ht

/-! ### Column retrieval in the assembled matrices -/

lemma length_nested {β : Type} (e : ℕ → ℕ) (mk : ℕ → ℕ → ℕ → β) (H M : ℕ) :
    ((List.range H).flatMap fun i' => (List.range M).flatMap fun j' =>
        (List.range (e j')).map fun k' => mk i' j' k').length
      = H * ((List.range M).map e).sum := by
  rw [List.length_flatMap]
  have hfe : (List.length ∘ fun i' => (List.range M).flatMap fun j' =>
      (List.range (e j')).map fun k' => mk i' j' k')
      = fun _ => ((List.range M).map e).sum := by
    funext a
    exact length_inner_block e (fun j' k' => mk a j' k') M
  rw [hfe]
  exact sum_const_range _ _

lemma lambdaCols_length (p : QPInput) : (lambdaCols p).length = lambda_horizon p := by
  unfold lambdaCols lambda_horizon obstacles_edges_sum edgeStart
  rw [length_nested]
  exact Nat.mul_comm _ _

lemma muCols_length (p : QPInput) : (muCols p).length = miu_horizon p := by
  unfold muCols miu_horizon
  rw [length_nested]
  rw [sum_const_range]
  ring

lemma pColsLambda_length (p : QPInput) : (pColsLambda p).length = lambda_horizon p := by
  unfold pColsLambda lambda_horizon obstacles_edges_sum edgeStart
  rw [length_nested]
  exact Nat.mul_comm _ _

lemma lamIdx_lt (p : QPInput) {i j k : ℕ} (hi : i < p.horizon + 1)
    (hj : j < p.obstacles_num) (hk : k < p.obstacles_edges_num j) :
    lamIdx p i j k < lambda_horizon p := by
  have h1 : edgeStart p j + k < obstacles_edges_sum p :=
    edge_prefix_lt p.obstacles_edges_num p.obstacles_num j k hj hk
  have h3 : (i + 1) * obstacles_edges_sum p
      ≤ (p.horizon + 1) * obstacles_edges_sum p :=
    Nat.mul_le_mul_right _ hi
  have h4 : (i + 1) * obstacles_edges_sum p
      = i * obstacles_edges_sum p + obstacles_edges_sum p := by ring
  unfold lamIdx lambda_horizon
  have h5 : obstacles_edges_sum p * (p.horizon + 1)
      = (p.horizon + 1) * obstacles_edges_sum p := Nat.mul_comm _ _
  omega

lemma assembleConstraint_getD_lambda (p : QPInput) {i j k : ℕ}
    (hi : i < p.horizon + 1) (hj : j < p.obstacles_num)
    (hk : k < p.obstacles_edges_num j) :
    (assembleConstraint p).getD (lamIdx p i j k) [] = lambdaCol p i j k := by
  unfold assembleConstraint
  rw [List.getD_append _ _ _ _ (by rw [lambdaCols_length]; exact lamIdx_lt p hi hj hk)]
  have hassoc : lamIdx p i j k
      = i * obstacles_edges_sum p + (edgeStart p j + k) := by
    unfold lamIdx
    omega
  rw [hassoc]
  unfold lambdaCols obstacles_edges_sum edgeStart
  exact getD_nested p.obstacles_edges_num (lambdaCol p) (p.horizon + 1)
    p.obstacles_num hi hj hk

lemma assembleConstraint_getD_mu (p : QPInput) {i j k : ℕ}
    (hi : i < p.horizon + 1) (hj : j < p.obstacles_num) (hk : k < 4) :
    (assembleConstraint p).getD (muIdx p i j k) [] = muCol p i j k := by
  unfold assembleConstraint
  rw [List.getD_append_right _ _ _ _
      (by rw [lambdaCols_length]; unfold muIdx; omega)]
  rw [lambdaCols_length]
  have hidx : muIdx p i j k - lambda_horizon p
      = i * ((List.range p.obstacles_num).map fun _ => 4).sum
        + (((List.range j).map fun _ => 4).sum + k) := by
    unfold muIdx
    rw [sum_const_range, sum_const_range]
    have : 4 * (i * p.obstacles_num + j) + k
        = i * (p.obstacles_num * 4) + (j * 4 + k) := by ring
    omega
  rw [hidx]
  unfold muCols
  exact getD_nested (fun _ => 4) (muCol p) (p.horizon + 1) p.obstacles_num hi hj hk

lemma assembleP_getD_lambda (p : QPInput) {i j c : ℕ}
    (hi : i < p.horizon + 1) (hj : j < p.obstacles_num)
    (hc : c < p.obstacles_edges_num j) :
    (assembleP p).getD (lamIdx p i j c) [] = pCol p i j c := by
  unfold assembleP
  rw [List.getD_append _ _ _ _ (by rw [pColsLambda_length]; exact lamIdx_lt p hi hj hc)]
  have hassoc : lamIdx p i j c
      = i * obstacles_edges_sum p + (edgeStart p j + c) := by
    unfold lamIdx
    omega
  rw [hassoc]
  unfold pColsLambda obstacles_edges_sum edgeStart
  exact getD_nested p.obstacles_edges_num (pCol p) (p.horizon + 1)
    p.obstacles_num hi hj hc

lemma assembleP_getD_mu (p : QPInput) {m : ℕ} (hm : m < miu_horizon p) :
    (assembleP p).getD (lambda_horizon p + m) [] = [] := by
  unfold assembleP
  rw [List.getD_append_right _ _ _ _ (by rw [pColsLambda_length]; omega)]
  rw [pColsLambda_length, Nat.add_sub_cancel_left,
    List.getD_eq_getElem?_getD, List.getElem?_replicate]
  rw [if_pos hm]
  rfl

/-! ### Concrete instances -/

/-- Minimal concrete instance: horizon 0, one obstacle with a single edge of
normal (1, 0) and offset 1, ego extents (2, 1, 2, 1) (so `g_ = {2, 1, 2, 1}`),
warm-start pose at the origin with zero heading. -/
noncomputable def sampleInput : QPInput where
  horizon := 0
  obstacles_num := 1
  obstacles_edges_num := fun _ => 1
  ego := fun k => if k = 0 ∨ k = 2 then 2 else 1
  obstacles_A := fun _ c => if c = 0 then 1 else 0
  obstacles_b := fun _ => 1
  xWS := fun _ _ => 0

/-- Concrete instance with heading π/2: horizon 0, one obstacle with a single
edge of normal (0, 1). -/
noncomputable def rotInput : QPInput where
  horizon := 0
  obstacles_num := 1
  obstacles_edges_num := fun _ => 1
  ego := fun _ => 1
  obstacles_A := fun _ c => if c = 0 then 0 else 1
  obstacles_b := fun _ => 0
  xWS := fun r _ => if r = 2 then Real.pi / 2 else 0

/-! ### Claims -/

/-- C4: for every construction input, the stored number of variables equals
`Σedges·(horizon+1) + 4·obstacles·(horizon+1)` and the stored number of
constraints equals `3·obstacles·(horizon+1) + n`, exactly. -/
theorem c4_problem_dimensions (p : QPInput) :
    num_of_variables p
        = obstacles_edges_sum p * (p.horizon + 1)
          + 4 * p.obstacles_num * (p.horizon + 1)
      ∧ num_of_constraints p
        = 3 * p.obstacles_num * (p.horizon + 1) + num_of_variables p := by
  constructor
  · unfold num_of_variables lambda_horizon miu_horizon
    ring
  · rfl

/-- C3 fails as stated: at `sampleInput` (one obstacle, horizon 0) row 2 lies
in the group-2 band (`2·obstacles·(horizon+1) ≤ 2 < 3·obstacles·(horizon+1)`),
yet its upper bound is the +∞ surrogate `2e19`, not 0. -/
theorem c3_counterexample :
    ¬ (∀ i, i < 3 * sampleInput.obstacles_num * (sampleInput.horizon + 1) →
        lbVec sampleInput i = 0 ∧ ubVec sampleInput i = 0) := by
  intro h
  have h2 := (h 2 (by norm_num [sampleInput])).2
  rw [ubVec, if_neg (by norm_num [sampleInput])] at h2
  norm_num at h2

/-- C3 (amended): the lower bound is 0 for every row; the upper bound is 0
exactly on the group-1 rows `i < 2·obstacles·(horizon+1)` and the +∞
surrogate `2e19` on every other row (in particular on the whole group-2
band). -/
theorem c3_bounds (p : QPInput) (i : ℕ) :
    lbVec p i = 0
      ∧ (i < 2 * p.obstacles_num * (p.horizon + 1) → ubVec p i = 0)
      ∧ (2 * p.obstacles_num * (p.horizon + 1) ≤ i → ubVec p i = 2e19) := by
  refine ⟨rfl, fun h => ?_, fun h => ?_⟩
  · rw [ubVec, if_pos h]
  · rw [ubVec, if_neg (by omega)]

/-- C3 witness: the amended bound description instantiated at `sampleInput`,
row 0. -/
theorem c3_bounds_witness :
    lbVec sampleInput 0 = 0
      ∧ (0 < 2 * sampleInput.obstacles_num * (sampleInput.horizon + 1) →
          ubVec sampleInput 0 = 0)
      ∧ (2 * sampleInput.obstacles_num * (sampleInput.horizon + 1) ≤ 0 →
          ubVec sampleInput 0 = 2e19) :=
  c3_bounds sampleInput 0

/-- C6: the solve entry point returns success exactly when the solver status
is 1 ("solved") or 2 ("solved inaccurately"); on a failure return both result
matrices are exactly the state they had before the call. -/
theorem c6_status_handling (p : QPInput) (st : WarmStartState) (out : OSQPOutcome) :
    ((optimizeRun p st out).1 = true
        ↔ (out.status_val = 1 ∨ out.status_val = 2))
      ∧ ((optimizeRun p st out).1 = false → (optimizeRun p st out).2.1 = st) := by
  unfold optimizeRun
  by_cases h : out.status_val ≠ 1 ∧ out.status_val ≠ 2
  · rw [if_pos h]
    constructor
    · constructor
      · intro hfalse
        exact absurd hfalse (by simp)
      · intro hor
        exact absurd hor (by tauto)
    · intro _
      rfl
  · rw [if_neg h]
    constructor
    · constructor
      · intro _
        tauto
      · intro _
        rfl
    · intro hfalse
      exact absurd hfalse (by simp)

/-- C6 witness: at status 3 the call reports failure and returns the previous
state unchanged. -/
theorem c6_status_handling_witness :
    ((optimizeRun sampleInput (initState sampleInput) ⟨3, fun _ => 0⟩).1 = true
        ↔ ((3:ℤ) = 1 ∨ (3:ℤ) = 2))
      ∧ ((optimizeRun sampleInput (initState sampleInput) ⟨3, fun _ => 0⟩).1 = false →
          (optimizeRun sampleInput (initState sampleInput) ⟨3, fun _ => 0⟩).2.1
            = initState sampleInput) :=
  c6_status_handling sampleInput (initState sampleInput) ⟨3, fun _ => 0⟩

/-- C7: on a successful solve the primal vector is split with the canonical
variable ordering: `λ(j, i) = x[i·Σedges + j]` and
`μ(j, i) = x[Σedges·(horizon+1) + i·4·obstacles + j]`, with the λ matrix of
shape `Σedges × (horizon+1)` and the μ matrix of shape
`4·obstacles × (horizon+1)`. -/
theorem c7_extraction (p : QPInput) (st : WarmStartState) (out : OSQPOutcome)
    (h : out.status_val = 1 ∨ out.status_val = 2) :
    (optimizeRun p st out).2.1.l_warm_up.rows = obstacles_edges_sum p
      ∧ (optimizeRun p st out).2.1.l_warm_up.cols = p.horizon + 1
      ∧ (optimizeRun p st out).2.1.n_warm_up.rows = 4 * p.obstacles_num
      ∧ (optimizeRun p st out).2.1.n_warm_up.cols = p.horizon + 1
      ∧ (∀ i j, i < p.horizon + 1 → j < obstacles_edges_sum p →
          (optimizeRun p st out).2.1.l_warm_up.entry j i
            = out.x (i * obstacles_edges_sum p + j))
      ∧ (∀ i j, i < p.horizon + 1 → j < 4 * p.obstacles_num →
          (optimizeRun p st out).2.1.n_warm_up.entry j i
            = out.x (obstacles_edges_sum p * (p.horizon + 1)
                + i * (4 * p.obstacles_num) + j)) := by
  unfold optimizeRun
  rw [if_neg (by tauto)]
  exact ⟨rfl, rfl, rfl, rfl, fun _ _ _ _ => rfl, fun _ _ _ _ => rfl⟩

/-- C7 witness: the extraction layout instantiated at `sampleInput` with a
successful status. -/
theorem c7_extraction_witness :
    (optimizeRun sampleInput (initState sampleInput)
        ⟨1, fun _ => 0⟩).2.1.l_warm_up.rows = obstacles_edges_sum sampleInput
      ∧ (optimizeRun sampleInput (initState sampleInput)
          ⟨1, fun _ => 0⟩).2.1.l_warm_up.cols = sampleInput.horizon + 1
      ∧ (optimizeRun sampleInput (initState sampleInput)
          ⟨1, fun _ => 0⟩).2.1.n_warm_up.rows = 4 * sampleInput.obstacles_num
      ∧ (optimizeRun sampleInput (initState sampleInput)
          ⟨1, fun _ => 0⟩).2.1.n_warm_up.cols = sampleInput.horizon + 1
      ∧ (∀ i j, i < sampleInput.horizon + 1 → j < obstacles_edges_sum sampleInput →
          (optimizeRun sampleInput (initState sampleInput)
              ⟨1, fun _ => 0⟩).2.1.l_warm_up.entry j i
            = (fun _ => (0:ℝ)) (i * obstacles_edges_sum sampleInput + j))
      ∧ (∀ i j, i < sampleInput.horizon + 1 → j < 4 * sampleInput.obstacles_num →
          (optimizeRun sampleInput (initState sampleInput)
              ⟨1, fun _ => 0⟩).2.1.n_warm_up.entry j i
            = (fun _ => (0:ℝ)) (obstacles_edges_sum sampleInput * (sampleInput.horizon + 1)
                + i * (4 * sampleInput.obstacles_num) + j)) :=
  c7_extraction sampleInput (initState sampleInput) ⟨1, fun _ => 0⟩ (Or.inl rfl)

/-- C9 fails as stated: with solver status 3 (primal infeasible) the call
takes the failure return, on which the freed-resource list is empty although
five solver-native structures were allocated during the call. -/
theorem c9_leak_on_failure :
    (optimizeRun sampleInput (initState sampleInput) ⟨3, fun _ => 0⟩).2.2 = []
      ∧ allocatedResources ≠ [] := by
  constructor
  · unfold optimizeRun
    rw [if_pos (by constructor <;> decide)]
  · simp [allocatedResources]

/-- C10: before any successful solve the result accessor returns fully
defined zero matrices of shapes `Σedges × (horizon+1)` and
`4·obstacles × (horizon+1)`. -/
theorem c10_initial_results (p : QPInput) :
    (get_optimization_results (initState p)).1.rows = obstacles_edges_sum p
      ∧ (get_optimization_results (initState p)).1.cols = p.horizon + 1
      ∧ (get_optimization_results (initState p)).2.rows = 4 * p.obstacles_num
      ∧ (get_optimization_results (initState p)).2.cols = p.horizon + 1
      ∧ (∀ r c, (get_optimization_results (initState p)).1.entry r c = 0)
      ∧ (∀ r c, (get_optimization_results (initState p)).2.entry r c = 0) :=
  ⟨rfl, rfl, rfl, rfl, fun _ _ => rfl, fun _ _ => rfl⟩

/-- C1 fails as stated: at `rotInput` (heading π/2, single obstacle edge with
normal (0, 1)) the first group-1 entry of the first λ column is
`cos θ·A₀₀ + sin θ·A₀₁ = 1`, whereas the standard rotation matrix
`[[cos θ, −sin θ], [sin θ, cos θ]]` would give `cos θ·A₀₀ − sin θ·A₀₁ = −1`. -/
theorem c1_rotation_counterexample :
    cscEntry (assembleConstraint rotInput) (2 * (0 * rotInput.obstacles_num + 0))
        (lamIdx rotInput 0 0 0)
      ≠ Real.cos (rotInput.xWS 2 0) * rotInput.obstacles_A (edgeStart rotInput 0 + 0) 0
          - Real.sin (rotInput.xWS 2 0) * rotInput.obstacles_A (edgeStart rotInput 0 + 0) 1 := by
  unfold cscEntry
  rw [assembleConstraint_getD_lambda rotInput (by norm_num) (by norm_num [rotInput])
    (by norm_num [rotInput])]
  unfold lambdaCol
  rw [cscGet_cons_hit]
  simp only [rotInput, edgeStart, List.range_zero, List.map_nil, List.sum_nil]
  norm_num [Real.cos_pi_div_two, Real.sin_pi_div_two]

/-- C1 (amended): for every step `i`, obstacle `j` and edge `k`, the two
group-1 rows of the constraint matrix restricted to the λ column of
`(i, j, k)` equal `M(θ_i)·A_jᵗ` where `M(θ) = [[cos θ, sin θ], [sin θ, cos θ]]`
— both off-diagonal entries carry `sin θ` with the same positive sign, unlike
the standard planar rotation matrix. -/
theorem c1_rotation_rows (p : QPInput) (i j k : ℕ) (hi : i < p.horizon + 1)
    (hj : j < p.obstacles_num) (hk : k < p.obstacles_edges_num j) :
    cscEntry (assembleConstraint p) (2 * (i * p.obstacles_num + j)) (lamIdx p i j k)
        = Real.cos (p.xWS 2 i) * p.obstacles_A (edgeStart p j + k) 0
          + Real.sin (p.xWS 2 i) * p.obstacles_A (edgeStart p j + k) 1
      ∧ cscEntry (assembleConstraint p) (2 * (i * p.obstacles_num + j) + 1)
          (lamIdx p i j k)
        = Real.sin (p.xWS 2 i) * p.obstacles_A (edgeStart p j + k) 0
          + Real.cos (p.xWS 2 i) * p.obstacles_A (edgeStart p j + k) 1 := by
  unfold cscEntry
  rw [assembleConstraint_getD_lambda p hi hj hk]
  unfold lambdaCol
  constructor
  · exact cscGet_cons_hit _ _ _
  · rw [cscGet_cons_miss _ _ _ _ (Nat.ne_of_lt (Nat.lt_succ_self _))]
    exact cscGet_cons_hit _ _ _

/-- C1 witness: the amended group-1 row description instantiated at
`sampleInput`, step 0, obstacle 0, edge 0. -/
theorem c1_rotation_rows_witness :
    cscEntry (assembleConstraint sampleInput)
        (2 * (0 * sampleInput.obstacles_num + 0)) (lamIdx sampleInput 0 0 0)
        = Real.cos (sampleInput.xWS 2 0)
            * sampleInput.obstacles_A (edgeStart sampleInput 0 + 0) 0
          + Real.sin (sampleInput.xWS 2 0)
            * sampleInput.obstacles_A (edgeStart sampleInput 0 + 0) 1
      ∧ cscEntry (assembleConstraint sampleInput)
          (2 * (0 * sampleInput.obstacles_num + 0) + 1) (lamIdx sampleInput 0 0 0)
        = Real.sin (sampleInput.xWS 2 0)
            * sampleInput.obstacles_A (edgeStart sampleInput 0 + 0) 0
          + Real.cos (sampleInput.xWS 2 0)
            * sampleInput.obstacles_A (edgeStart sampleInput 0 + 0) 1 :=
  c1_rotation_rows sampleInput 0 0 0 (by norm_num) (by norm_num [sampleInput])
    (by norm_num [sampleInput])

/-- C2: the code stores `+g_[k]`, not `−g_[k]`, in the group-2 row of each μ
column.  At `sampleInput` (`g_[0] = 2`) the group-2 entry of the μ column of
(step 0, obstacle 0, corner 0) — row 2, the group-2 row base — equals
`+g_[0] = 2`, in contradiction with the in-source comment
`|A * t - b, -g|` and the claimed `−g[k] = −2`. -/
theorem c2_group2_mu_entry :
    cscEntry (assembleConstraint sampleInput) 2 (muIdx sampleInput 0 0 0)
        = gVec sampleInput 0
      ∧ gVec sampleInput 0 = 2 := by
  have hg : gVec sampleInput 0 = 2 := by
    norm_num [gVec, gList, l_ev, sampleInput]
  refine ⟨?_, hg⟩
  unfold cscEntry
  rw [assembleConstraint_getD_mu sampleInput (by norm_num) (by norm_num [sampleInput])
    (by norm_num)]
  have hcol : muCol sampleInput 0 0 0
      = [(0, 1), (2, gVec sampleInput 0), (4, 1)] := by
    norm_num [muCol, lambda_horizon, obstacles_edges_sum, edgeStart, sampleInput,
      List.range_succ]
  rw [hcol, cscGet_cons_miss _ _ _ _ (by norm_num)]
  exact cscGet_cons_hit _ _ _

/-- C5: the objective matrix P is block-diagonal over the λ index space: at
the λ column of (step i, obstacle j, edge-column c), the rows inside the
block of (i, j) carry the Gram matrix `A_j·A_jᵗ` (independent of i), every
row outside that block reads 0, and every μ column of P is empty. -/
theorem c5_objective_block_structure (p : QPInput) (i j c : ℕ)
    (hi : i < p.horizon + 1) (hj : j < p.obstacles_num)
    (hc : c < p.obstacles_edges_num j) :
    (∀ r, r < p.obstacles_edges_num j →
        cscEntry (assembleP p) (lamIdx p i j r) (lamIdx p i j c) = gram p j r c)
      ∧ (∀ row, (∀ r, r < p.obstacles_edges_num j → row ≠ lamIdx p i j r) →
          cscEntry (assembleP p) row (lamIdx p i j c) = 0)
      ∧ (∀ m, m < miu_horizon p →
          (assembleP p).getD (lambda_horizon p + m) [] = []) := by
  refine ⟨fun r hr => ?_, fun row hrow => ?_, fun m hm => assembleP_getD_mu p hm⟩
  · unfold cscEntry
    rw [assembleP_getD_lambda p hi hj hc]
    unfold pCol lamIdx
    exact cscGet_map_range_hit _ _ _ _ hr
  · unfold cscEntry
    rw [assembleP_getD_lambda p hi hj hc]
    unfold pCol
    apply cscGet_map_range_none
    intro t ht
    have hne := hrow t ht
    unfold lamIdx at hne
    exact Ne.symm hne

/-- C5 witness: the block structure instantiated at `sampleInput`, step 0,
obstacle 0, column 0. -/
theorem c5_objective_block_structure_witness :
    (∀ r, r < sampleInput.obstacles_edges_num 0 →
        cscEntry (assembleP sampleInput) (lamIdx sampleInput 0 0 r)
            (lamIdx sampleInput 0 0 0)
          = gram sampleInput 0 r 0)
      ∧ (∀ row, (∀ r, r < sampleInput.obstacles_edges_num 0 →
            row ≠ lamIdx sampleInput 0 0 r) →
          cscEntry (assembleP sampleInput) row (lamIdx sampleInput 0 0 0) = 0)
      ∧ (∀ m, m < miu_horizon sampleInput →
          (assembleP sampleInput).getD (lambda_horizon sampleInput + m) [] = []) :=
  c5_objective_block_structure sampleInput 0 0 0 (by norm_num)
    (by norm_num [sampleInput]) (by norm_num [sampleInput])

/-! ### Column-pointer well-formedness -/

lemma cscIndptr_getD_zero (cols : List (List (ℕ × ℝ))) :
    (cscIndptr cols).getD 0 0 = 0 := by
  unfold cscIndptr
  rw [getD_map_range _ _ _ _ (by omega)]
  simp

lemma cscIndptr_length (cols : List (List (ℕ × ℝ))) :
    (cscIndptr cols).length = cols.length + 1 := by
  unfold cscIndptr
  simp

lemma sum_take_mono (l : List ℕ) (a b : ℕ) (h : a ≤ b) :
    (l.take a).sum ≤ (l.take b).sum := by
  have hb : b = a + (b - a) := by omega
  rw [hb, List.take_add]
  simp

lemma cscIndptr_pairwise (cols : List (List (ℕ × ℝ))) :
    (cscIndptr cols).Pairwise (· ≤ ·) := by
  unfold cscIndptr
  exact (List.pairwise_lt_range _).map _
    (fun a b hab => sum_take_mono _ _ _ (Nat.le_of_lt hab))

lemma assembleConstraint_length (p : QPInput) :
    (assembleConstraint p).length = num_of_variables p := by
  unfold assembleConstraint num_of_variables
  rw [List.length_append, lambdaCols_length, muCols_length]

lemma assembleP_length (p : QPInput) :
    (assembleP p).length = num_of_variables p := by
  unfold assembleP num_of_variables
  rw [List.length_append, pColsLambda_length, List.length_replicate]

/-- C8: for both P and A, the column-pointer array starts at 0, is
non-decreasing, and has length exactly n+1; the value array and the row-index
array have equal lengths. -/
theorem c8_csc_invariants (p : QPInput) :
    ((P_indptr p).getD 0 0 = 0
        ∧ (P_indptr p).Pairwise (· ≤ ·)
        ∧ (P_indptr p).length = num_of_variables p + 1
        ∧ (P_data p).length = (P_indices p).length)
      ∧ ((A_indptr p).getD 0 0 = 0
        ∧ (A_indptr p).Pairwise (· ≤ ·)
        ∧ (A_indptr p).length = num_of_variables p + 1
        ∧ (A_data p).length = (A_indices p).length) := by
  constructor
  · refine ⟨cscIndptr_getD_zero _, cscIndptr_pairwise _, ?_, ?_⟩
    · unfold P_indptr
      rw [cscIndptr_length, assembleP_length]
    · unfold P_data P_indices
      rw [List.length_map, List.length_map]
  · refine ⟨cscIndptr_getD_zero _, cscIndptr_pairwise _, ?_, ?_⟩
    · unfold A_indptr
      rw [cscIndptr_length, assembleConstraint_length]
    · unfold A_data A_indices
      rw [List.length_map, List.length_map]

end DualVariableWarmStartOSQP
